import Mathlib

/-!
Verification of the NH education-aid import pipeline (import_data.py).

The Python source is shallowly embedded: strings become `List Char` (ASCII
model of Python str operations), currency floats become `ℚ`, SQLite tables
become lists of records, and fallible operations return `Option`.  Regex
substitutions of the source are implemented as explicit, executable
character-list transformations that realize the same matches the anchored
patterns make.  Recursive helpers are written with structural or fuel
recursion so that every definition evaluates by kernel reduction.
-/

namespace NHEd

/-- ASCII whitespace, the characters Python str.strip and the regex class
matches on the ASCII data this pipeline processes. -/
def isPySpace (c : Char) : Bool :=
  c = ' ' || c = '\t' || c = '\n' || c = '\r' || c = '\x0b' || c = '\x0c'

/-- ASCII decimal digit. -/
def isDigitC (c : Char) : Bool :=
  ('0' ≤ c) && (c ≤ '9')

/-- ASCII letter, the model of the regex class [A-Za-z] and of the characters
Python treats as cased in this data. -/
def isAlphaC (c : Char) : Bool :=
  decide ((97 ≤ c.toNat ∧ c.toNat ≤ 122) ∨ (65 ≤ c.toNat ∧ c.toNat ≤ 90))

/-- The apostrophe character, written by code point to keep source quoting
uniform. -/
def aposChar : Char := Char.ofNat 39

/-- ASCII model of Python str.lower applied to one character, as the shift
by 32 code points on the uppercase range. -/
def toLowerC (c : Char) : Char :=
  if 65 ≤ c.toNat ∧ c.toNat ≤ 90 then Char.ofNat (c.toNat + 32) else c

/-- ASCII model of Python str.upper applied to one character. -/
def toUpperC (c : Char) : Char :=
  if 97 ≤ c.toNat ∧ c.toNat ≤ 122 then Char.ofNat (c.toNat - 32) else c

/-- Model of Python str.lower on a whole string. -/
def lowerList (l : List Char) : List Char := l.map toLowerC

/-- Model of Python str.strip (default whitespace stripping). -/
def stripChars (l : List Char) : List Char :=
  ((l.dropWhile isPySpace).reverse.dropWhile isPySpace).reverse

/-- Drop a trailing run of characters satisfying p, the effect of an anchored
substitution such as the source regex that erases trailing marker runs. -/
def dropTrailing (p : Char → Bool) (l : List Char) : List Char :=
  (l.reverse.dropWhile p).reverse

/-- Substring test, the model of the Python `in` operator on str. -/
def containsSub (pat l : List Char) : Bool :=
  l.tails.any (fun t => pat.isPrefixOf t)

-- ==========================================================
-- parse_money  (import_data.py lines 56-80)
-- ==========================================================

/-- Numeric value of a digit string, most significant digit first. -/
def digitsVal (l : List Char) : ℕ :=
  l.foldl (fun a c => 10 * a + (c.toNat - 48)) 0

/-- Exponent suffix of the Python float() grammar: either the end of input or
e/E followed by an optionally signed digit run. -/
def pyFloatExp (m : ℚ) (s : List Char) : Option ℚ :=
  match s with
  | [] => some m
  | c :: rest =>
    if c = 'e' ∨ c = 'E' then
      let p : ℤ × List Char :=
        match rest with
        | '+' :: r => (1, r)
        | '-' :: r => (-1, r)
        | r => (1, r)
      let dd := p.2.takeWhile isDigitC
      if dd = [] ∨ p.2.dropWhile isDigitC ≠ [] then none
      else some (m * (10 : ℚ) ^ (p.1 * (digitsVal dd : ℤ)))
    else none

/-- Unsigned part of the Python float() decimal grammar: digits with an
optional fractional part, at least one digit overall, optional exponent. -/
def pyFloatUnsigned (s : List Char) : Option ℚ :=
  let d1 := s.takeWhile isDigitC
  match s.dropWhile isDigitC with
  | '.' :: r2 =>
    let d2 := r2.takeWhile isDigitC
    if d1 = [] ∧ d2 = [] then none
    else pyFloatExp ((digitsVal d1 : ℚ) + (digitsVal d2 : ℚ) / (10 : ℚ) ^ d2.length)
           (r2.dropWhile isDigitC)
  | other =>
    if d1 = [] then none else pyFloatExp (digitsVal d1 : ℚ) other

/-- Model of Python float(str) on the decimal grammar the pipeline feeds it:
optional surrounding whitespace, optional sign, digits with optional
fractional part and optional exponent.  Inputs outside this grammar (such as
inf, nan, or underscore separators, which no cell of this data set produces
after cleaning) are mapped to none, the model of ValueError. -/
def pyFloat (s : List Char) : Option ℚ :=
  let t := stripChars s
  if t.head? = some '+' then pyFloatUnsigned t.tail
  else if t.head? = some '-' then (pyFloatUnsigned t.tail).map (fun q => -q)
  else pyFloatUnsigned t

/-- Characters removed by the first replace chain of parse_money: dollar
signs, double quotes, single quotes. -/
def isMoneySymbol (c : Char) : Bool :=
  c = '$' || c = '"' || c = aposChar

/-- Body of parse_money on characters: sentinel checks, symbol stripping,
parenthesized negatives, thousands-separator removal, then float parsing. -/
def parseMoneyChars (s : List Char) : Option ℚ :=
  let v0 := stripChars s
  if v0 = [] ∨ v0 = "-".data ∨ v0 = "- ".data ∨ v0 = " -   ".data ∨ v0 = "#REF!".data then
    some 0
  else
    let v1 := stripChars (v0.filter (fun c => !(isMoneySymbol c)))
    if v1 = [] ∨ v1 = "-".data ∨ v1 = "-   ".data then
      some 0
    else
      let v2 := if v1.head? = some '(' ∧ v1.getLast? = some ')' then v1.tail.dropLast else v1
      let v3 := v2.filter (fun c => !(c = ',' || c = ' '))
      if v3 = [] ∨ v3 = "-".data then
        some 0
      else
        match pyFloat v3 with
        | some q => some (if v1.head? = some '(' ∧ v1.getLast? = some ')' then -q else q)
        | none => none

/-- parse_money: convert a currency cell to a number.  A Python None input
returns None; unparseable text returns None (the ValueError is caught);
sentinel tokens return numeric zero. -/
def parse_money (val : Option String) : Option ℚ :=
  match val with
  | none => none
  | some s => parseMoneyChars s.data

-- ==========================================================
-- C4: null/empty and sentinel handling of parse_money
-- ==========================================================

/-- C4 counterexample: the claim says a null or empty input returns null, but
parse_money of the empty string returns numeric zero, not null (only the
Python None input returns null). -/
theorem parse_money_empty_is_zero :
    parse_money (some "") = some 0 ∧ parse_money (some "") ≠ none :=
  ⟨rfl, fun h => Option.noConfusion h⟩

/-- C4 amended: a null input returns null; the sentinel tokens return numeric
zero, where the sentinels are the bare dash, the broken-reference marker
`#REF!`, and any value that is blank after stripping whitespace, currency
symbols and quotes — the empty string falls in the blank-after-strip class
and therefore yields zero, not null. -/
theorem parse_money_null_and_sentinels :
    parse_money none = none ∧
    ∀ s : String,
      (stripChars s.data = "-".data ∨ stripChars s.data = "#REF!".data ∨
        stripChars ((stripChars s.data).filter (fun c => !(isMoneySymbol c))) = []) →
      parse_money (some s) = some 0 := by
  refine ⟨rfl, ?_⟩
  intro s h
  show parseMoneyChars s.data = some 0
  simp only [parseMoneyChars]
  by_cases h1 : stripChars s.data = [] ∨ stripChars s.data = "-".data ∨
      stripChars s.data = "- ".data ∨ stripChars s.data = " -   ".data ∨
      stripChars s.data = "#REF!".data
  · rw [if_pos h1]
  · rw [if_neg h1]
    rcases h with h | h | h
    · exact absurd (Or.inr (Or.inl h)) h1
    · exact absurd (Or.inr (Or.inr (Or.inr (Or.inr h)))) h1
    · rw [if_pos (Or.inl h)]

/-- C4 witness: the theorem applied at the concrete inputs: a lone dollar
sign is blank after symbol stripping and parses to zero. -/
theorem parse_money_null_and_sentinels_witness :
    parse_money (some "$") = some 0 :=
  parse_money_null_and_sentinels.2 "$" (Or.inr (Or.inr (by decide)))

-- ==========================================================
-- C5: canonical currency rendering and the parse round-trip
-- ==========================================================

/-- One decimal digit as a character. -/
def digitChar : ℕ → Char
  | 0 => '0' | 1 => '1' | 2 => '2' | 3 => '3' | 4 => '4'
  | 5 => '5' | 6 => '6' | 7 => '7' | 8 => '8' | 9 => '9'
  | _ => 'X'

/-- Decimal digits of n, most significant first, with structural fuel. -/
def natDigitsF : ℕ → ℕ → List Char
  | 0, _ => []
  | fuel + 1, n =>
    if n < 10 then [digitChar n]
    else natDigitsF fuel (n / 10) ++ [digitChar (n % 10)]

/-- Decimal digits of n, most significant first. -/
def natDigits (n : ℕ) : List Char := natDigitsF (n + 1) n

/-- Insert thousands separators into a digit string, grouping by three from
the right, as the Python comma format specifier renders integers. -/
def groupDigitsF : ℕ → List Char → List Char
  | 0, l => l
  | fuel + 1, l =>
    if l.length ≤ 3 then l
    else (l.take ((l.length - 1) % 3 + 1)) ++
      ',' :: groupDigitsF fuel (l.drop ((l.length - 1) % 3 + 1))

/-- Thousands-separated digit string. -/
def groupDigits (l : List Char) : List Char := groupDigitsF l.length l

/-- Two-digit cents field with a leading zero. -/
def twoDigits (c : ℕ) : List Char := [digitChar (c / 10), digitChar (c % 10)]

/-- Digits, separators and point of the canonical currency body 1,234.56. -/
def moneyBody (d c : ℕ) : List Char :=
  groupDigits (natDigits d) ++ '.' :: twoDigits c

/-- Canonical dollar rendering of d dollars and c cents. -/
def renderCanonical (d c : ℕ) : String := ⟨'$' :: moneyBody d c⟩

/-- Canonical accounting (parenthesized, negative) rendering. -/
def renderParen (d c : ℕ) : String := ⟨'(' :: (moneyBody d c ++ [')'])⟩

-- basic digit facts

theorem digitChar_isDigit {n : ℕ} (h : n < 10) : isDigitC (digitChar n) = true := by
  interval_cases n <;> decide

theorem digitChar_val {n : ℕ} (h : n < 10) : (digitChar n).toNat - 48 = n := by
  interval_cases n <;> decide

theorem digitsVal_append_singleton (l : List Char) (c : Char) :
    digitsVal (l ++ [c]) = 10 * digitsVal l + (c.toNat - 48) := by
  simp [digitsVal, List.foldl_append]

theorem natDigitsF_spec :
    ∀ fuel n, n < fuel →
      digitsVal (natDigitsF fuel n) = n ∧ natDigitsF fuel n ≠ [] ∧
      ∀ c ∈ natDigitsF fuel n, isDigitC c = true := by
  intro fuel
  induction fuel with
  | zero => intro n h; omega
  | succ f ih =>
    intro n h
    by_cases h10 : n < 10
    · refine ⟨?_, ?_, ?_⟩
      · simp [natDigitsF, h10, digitsVal, digitChar_val h10]
      · simp [natDigitsF, h10]
      · intro c hc
        simp [natDigitsF, h10] at hc
        rw [hc]; exact digitChar_isDigit h10
    · have hdiv : n / 10 < f := by
        have := Nat.div_lt_self (by omega : 0 < n) (by norm_num : 1 < 10)
        omega
      obtain ⟨hv, hne, hd⟩ := ih (n / 10) hdiv
      refine ⟨?_, ?_, ?_⟩
      · rw [natDigitsF, if_neg h10, digitsVal_append_singleton, hv,
          digitChar_val (Nat.mod_lt n (by norm_num))]
        omega
      · rw [natDigitsF, if_neg h10]
        simp
      · intro c hc
        rw [natDigitsF, if_neg h10] at hc
        rcases List.mem_append.mp hc with hc | hc
        · exact hd c hc
        · simp at hc
          rw [hc]; exact digitChar_isDigit (Nat.mod_lt n (by norm_num))

theorem natDigits_val (n : ℕ) : digitsVal (natDigits n) = n :=
  (natDigitsF_spec (n + 1) n (by omega)).1

theorem natDigits_ne_nil (n : ℕ) : natDigits n ≠ [] :=
  (natDigitsF_spec (n + 1) n (by omega)).2.1

theorem natDigits_all_digits (n : ℕ) : ∀ c ∈ natDigits n, isDigitC c = true :=
  (natDigitsF_spec (n + 1) n (by omega)).2.2

theorem twoDigits_val {c : ℕ} (h : c < 100) : digitsVal (twoDigits c) = c := by
  have h1 : c / 10 < 10 := by omega
  have h2 : c % 10 < 10 := Nat.mod_lt c (by norm_num)
  simp [twoDigits, digitsVal, digitChar_val h1, digitChar_val h2]
  omega

theorem twoDigits_all_digits {c : ℕ} (h : c < 100) :
    ∀ x ∈ twoDigits c, isDigitC x = true := by
  intro x hx
  have h1 : c / 10 < 10 := by omega
  have h2 : c % 10 < 10 := Nat.mod_lt c (by norm_num)
  rcases (by simpa [twoDigits] using hx : x = digitChar (c / 10) ∨ x = digitChar (c % 10)) with
    hx | hx
  · rw [hx]; exact digitChar_isDigit h1
  · rw [hx]; exact digitChar_isDigit h2

-- character class facts used to drive the parse walk

theorem digit_ne_of {c x : Char} (h : isDigitC c = true) (hx : isDigitC x = false) : c ≠ x := by
  intro he; rw [he, hx] at h; cases h

theorem digit_not_space {c : Char} (h : isDigitC c = true) : isPySpace c = false := by
  cases hs : isPySpace c
  · rfl
  · exfalso
    have : c = ' ' ∨ c = '\t' ∨ c = '\n' ∨ c = '\r' ∨ c = '\x0b' ∨ c = '\x0c' := by
      simpa [isPySpace, or_assoc] using hs
    rcases this with h1 | h1 | h1 | h1 | h1 | h1 <;> (subst h1; exact absurd h (by decide))

theorem digit_not_symbol {c : Char} (h : isDigitC c = true) : isMoneySymbol c = false := by
  cases hs : isMoneySymbol c
  · rfl
  · exfalso
    have : c = '$' ∨ c = '"' ∨ c = aposChar := by simpa [isMoneySymbol, or_assoc] using hs
    rcases this with h1 | h1 | h1 <;> (subst h1; exact absurd h (by decide))

-- generic strip, filter, takeWhile helpers

theorem dropWhile_eq_self_of_all {p : Char → Bool} {l : List Char}
    (h : ∀ c ∈ l, p c = false) : l.dropWhile p = l := by
  cases l with
  | nil => rfl
  | cons a t => simp [List.dropWhile_cons, h a (by simp)]

theorem stripChars_eq_self_of_all {l : List Char}
    (h : ∀ c ∈ l, isPySpace c = false) : stripChars l = l := by
  unfold stripChars
  rw [dropWhile_eq_self_of_all h, dropWhile_eq_self_of_all (fun c hc => h c (by simpa using hc)),
    List.reverse_reverse]

theorem takeWhile_eq_self_of_all {p : Char → Bool} {l : List Char}
    (h : ∀ c ∈ l, p c = true) : l.takeWhile p = l := by
  induction l with
  | nil => rfl
  | cons a t ih =>
    simp only [List.takeWhile_cons, h a (by simp), if_true]
    rw [ih (fun c hc => h c (by simp [hc]))]

theorem dropWhile_eq_nil_of_all {p : Char → Bool} {l : List Char}
    (h : ∀ c ∈ l, p c = true) : l.dropWhile p = [] := by
  induction l with
  | nil => rfl
  | cons a t ih =>
    simp only [List.dropWhile_cons, h a (by simp), if_true]
    exact ih (fun c hc => h c (by simp [hc]))

theorem takeWhile_append_of_all {p : Char → Bool} {A B : List Char} {c : Char}
    (hA : ∀ a ∈ A, p a = true) (hc : p c = false) :
    (A ++ c :: B).takeWhile p = A := by
  induction A with
  | nil => simp [List.takeWhile_cons, hc]
  | cons x t ih =>
    simp only [List.cons_append, List.takeWhile_cons, hA x (by simp), if_true]
    rw [ih (fun a ha => hA a (by simp [ha]))]

theorem dropWhile_append_of_all {p : Char → Bool} {A B : List Char} {c : Char}
    (hA : ∀ a ∈ A, p a = true) (hc : p c = false) :
    (A ++ c :: B).dropWhile p = c :: B := by
  induction A with
  | nil => simp [List.dropWhile_cons, hc]
  | cons x t ih =>
    simp only [List.cons_append, List.dropWhile_cons, hA x (by simp), if_true]
    exact ih (fun a ha => hA a (by simp [ha]))

-- groupDigits facts

theorem groupDigitsF_filter {p : Char → Bool} (hcomma : p ',' = false) :
    ∀ fuel (l : List Char), l.length ≤ fuel → (∀ c ∈ l, p c = true) →
      (groupDigitsF fuel l).filter p = l := by
  intro fuel
  induction fuel with
  | zero =>
    intro l hl _
    have : l = [] := List.length_eq_zero.mp (by omega)
    subst this; rfl
  | succ f ih =>
    intro l hl hall
    by_cases h3 : l.length ≤ 3
    · rw [groupDigitsF, if_pos h3, List.filter_eq_self.mpr hall]
    · rw [groupDigitsF, if_neg h3, List.filter_append, List.filter_cons_of_neg (by simp [hcomma]),
        ih _ (by simp; omega) (fun c hc => hall c (List.mem_of_mem_drop hc)),
        List.filter_eq_self.mpr (fun c hc => hall c (List.mem_of_mem_take hc)),
        List.take_append_drop]

theorem groupDigitsF_mem :
    ∀ fuel (l : List Char) (c : Char), c ∈ groupDigitsF fuel l → c ∈ l ∨ c = ',' := by
  intro fuel
  induction fuel with
  | zero => intro l c hc; exact Or.inl hc
  | succ f ih =>
    intro l c hc
    by_cases h3 : l.length ≤ 3
    · rw [groupDigitsF, if_pos h3] at hc; exact Or.inl hc
    · rw [groupDigitsF, if_neg h3] at hc
      rcases List.mem_append.mp hc with hc | hc
      · exact Or.inl (List.mem_of_mem_take hc)
      · rcases List.mem_cons.mp hc with hc | hc
        · exact Or.inr hc
        · rcases ih _ c hc with hc | hc
          · exact Or.inl (List.mem_of_mem_drop hc)
          · exact Or.inr hc

theorem groupDigitsF_head? :
    ∀ fuel (l : List Char), (groupDigitsF fuel l).head? = l.head? := by
  intro fuel
  induction fuel with
  | zero => intro l; rfl
  | succ f ih =>
    intro l
    by_cases h3 : l.length ≤ 3
    · rw [groupDigitsF, if_pos h3]
    · rw [groupDigitsF, if_neg h3]
      cases l with
      | nil => simp at h3
      | cons a t => simp [List.take_succ_cons]

theorem groupDigits_filter {p : Char → Bool} (hcomma : p ',' = false) {l : List Char}
    (hall : ∀ c ∈ l, p c = true) : (groupDigits l).filter p = l :=
  groupDigitsF_filter hcomma l.length l le_rfl hall

theorem groupDigits_mem {l : List Char} {c : Char} (hc : c ∈ groupDigits l) :
    c ∈ l ∨ c = ',' :=
  groupDigitsF_mem l.length l c hc

theorem groupDigits_head? (l : List Char) : (groupDigits l).head? = l.head? :=
  groupDigitsF_head? l.length l

-- the float-parsing walk over a canonical digits.digits body

theorem pyFloatUnsigned_digits_frac {D F : List Char} (hD : ∀ c ∈ D, isDigitC c = true)
    (hF : ∀ c ∈ F, isDigitC c = true) (hDne : D ≠ []) :
    pyFloatUnsigned (D ++ '.' :: F) =
      some ((digitsVal D : ℚ) + (digitsVal F : ℚ) / (10 : ℚ) ^ F.length) := by
  have hdot : isDigitC '.' = false := by decide
  have htake : (D ++ '.' :: F).takeWhile isDigitC = D := takeWhile_append_of_all hD hdot
  have hdrop : (D ++ '.' :: F).dropWhile isDigitC = '.' :: F := dropWhile_append_of_all hD hdot
  simp only [pyFloatUnsigned, htake, hdrop]
  rw [if_neg (fun hand => hDne hand.1), takeWhile_eq_self_of_all hF,
    dropWhile_eq_nil_of_all hF]
  rfl

theorem pyFloat_digits_frac {D F : List Char} (hD : ∀ c ∈ D, isDigitC c = true)
    (hF : ∀ c ∈ F, isDigitC c = true) (hDne : D ≠ []) :
    pyFloat (D ++ '.' :: F) =
      some ((digitsVal D : ℚ) + (digitsVal F : ℚ) / (10 : ℚ) ^ F.length) := by
  obtain ⟨a, D', rfl⟩ : ∃ a D', D = a :: D' := by
    cases D with
    | nil => exact absurd rfl hDne
    | cons a D' => exact ⟨a, D', rfl⟩
  have ha : isDigitC a = true := hD a (by simp)
  have hsp : ∀ x ∈ (a :: D') ++ '.' :: F, isPySpace x = false := by
    intro x hx
    rcases List.mem_append.mp hx with hx | hx
    · exact digit_not_space (hD x hx)
    · rcases List.mem_cons.mp hx with hx | hx
      · rw [hx]; decide
      · exact digit_not_space (hF x hx)
  have hstrip : stripChars ((a :: D') ++ '.' :: F) = (a :: D') ++ '.' :: F :=
    stripChars_eq_self_of_all hsp
  simp only [List.cons_append] at hstrip
  simp only [pyFloat, List.cons_append, hstrip, List.head?_cons]
  rw [if_neg (fun h => digit_ne_of ha (by decide) (Option.some.inj h)),
    if_neg (fun h => digit_ne_of ha (by decide) (Option.some.inj h))]
  exact pyFloatUnsigned_digits_frac hD hF hDne

-- facts about the canonical money body

theorem moneyBody_classes {d c : ℕ} (hc : c < 100) :
    ∀ x ∈ moneyBody d c, isDigitC x = true ∨ x = ',' ∨ x = '.' := by
  intro x hx
  rcases List.mem_append.mp hx with hx | hx
  · rcases groupDigits_mem hx with hx | hx
    · exact Or.inl (natDigits_all_digits d x hx)
    · exact Or.inr (Or.inl hx)
  · rcases List.mem_cons.mp hx with hx | hx
    · exact Or.inr (Or.inr hx)
    · exact Or.inl (twoDigits_all_digits hc x hx)

theorem moneyBody_not_space {d c : ℕ} (hc : c < 100) :
    ∀ x ∈ moneyBody d c, isPySpace x = false := by
  intro x hx
  rcases moneyBody_classes hc x hx with h | h | h
  · exact digit_not_space h
  · rw [h]; decide
  · rw [h]; decide

theorem moneyBody_not_symbol {d c : ℕ} (hc : c < 100) :
    ∀ x ∈ moneyBody d c, isMoneySymbol x = false := by
  intro x hx
  rcases moneyBody_classes hc x hx with h | h | h
  · exact digit_not_symbol h
  · rw [h]; decide
  · rw [h]; decide

theorem keep2_of_digit {x : Char} (h : isDigitC x = true) : (!(x = ',' || x = ' ')) = true := by
  have h1 : x ≠ ',' := digit_ne_of h (by decide)
  have h2 : x ≠ ' ' := digit_ne_of h (by decide)
  simp [h1, h2]

theorem moneyBody_filter_commas {d c : ℕ} (hc : c < 100) :
    (moneyBody d c).filter (fun x => !(x = ',' || x = ' ')) =
      natDigits d ++ '.' :: twoDigits c := by
  unfold moneyBody
  rw [List.filter_append]
  congr 1
  · exact groupDigits_filter (by decide)
      (fun x hx => keep2_of_digit (natDigits_all_digits d x hx))
  · rw [List.filter_cons_of_pos (by decide)]
    congr 1
    exact List.filter_eq_self.mpr
      (fun x hx => keep2_of_digit (twoDigits_all_digits hc x hx))

theorem moneyBody_head {d c : ℕ} :
    ∃ a B, moneyBody d c = a :: B ∧ isDigitC a = true := by
  obtain ⟨a, D', hD⟩ : ∃ a D', natDigits d = a :: D' := by
    cases h : natDigits d with
    | nil => exact absurd h (natDigits_ne_nil d)
    | cons a D' => exact ⟨a, D', rfl⟩
  have hh : (groupDigits (natDigits d)).head? = some a := by
    rw [groupDigits_head?, hD, List.head?_cons]
  cases hG : groupDigits (natDigits d) with
  | nil => rw [hG] at hh; cases hh
  | cons g gt =>
    rw [hG, List.head?_cons] at hh
    refine ⟨g, gt ++ '.' :: twoDigits c, ?_, ?_⟩
    · simp [moneyBody, hG]
    · rw [Option.some.inj hh]
      exact natDigits_all_digits d a (by rw [hD]; simp)

theorem natDigits_head {d : ℕ} :
    ∃ a D', natDigits d = a :: D' ∧ isDigitC a = true := by
  cases h : natDigits d with
  | nil => exact absurd h (natDigits_ne_nil d)
  | cons a D' => exact ⟨a, D', rfl, natDigits_all_digits d a (by rw [h]; simp)⟩

theorem pyFloat_moneyTail {d c : ℕ} (hc : c < 100) :
    pyFloat (natDigits d ++ '.' :: twoDigits c) = some ((d : ℚ) + (c : ℚ) / 100) := by
  rw [pyFloat_digits_frac (natDigits_all_digits d) (twoDigits_all_digits hc)
    (natDigits_ne_nil d), natDigits_val, twoDigits_val hc]
  norm_num [twoDigits]

theorem tail_gates {d c : ℕ} :
    ¬(natDigits d ++ '.' :: twoDigits c = [] ∨ natDigits d ++ '.' :: twoDigits c = "-".data) := by
  obtain ⟨a, D', hD, ha⟩ := natDigits_head (d := d)
  rw [hD, List.cons_append, show "-".data = ['-'] from rfl]
  intro h
  rcases h with h | h
  · exact List.cons_ne_nil _ _ h
  · injection h with h1 _
    exact digit_ne_of ha (by decide) h1

/-- The cleaning walk of parse_money over the canonical dollar rendering. -/
theorem parseMoneyChars_canonical (d c : ℕ) (hc : c < 100) :
    parseMoneyChars ('$' :: moneyBody d c) = some ((d : ℚ) + (c : ℚ) / 100) := by
  obtain ⟨a, B', hB, ha⟩ := moneyBody_head (d := d) (c := c)
  have hsp : ∀ x ∈ '$' :: moneyBody d c, isPySpace x = false := by
    intro x hx
    rcases List.mem_cons.mp hx with hx | hx
    · rw [hx]; decide
    · exact moneyBody_not_space hc x hx
  have hv0 : stripChars ('$' :: moneyBody d c) = '$' :: moneyBody d c :=
    stripChars_eq_self_of_all hsp
  have hv1 : stripChars (('$' :: moneyBody d c).filter (fun x => !(isMoneySymbol x))) =
      moneyBody d c := by
    rw [List.filter_cons_of_neg (by decide),
      List.filter_eq_self.mpr (fun x hx => by rw [moneyBody_not_symbol hc x hx]; rfl)]
    exact stripChars_eq_self_of_all (moneyBody_not_space hc)
  have hg1 : ¬('$' :: moneyBody d c = [] ∨ '$' :: moneyBody d c = "-".data ∨
      '$' :: moneyBody d c = "- ".data ∨ '$' :: moneyBody d c = " -   ".data ∨
      '$' :: moneyBody d c = "#REF!".data) := by
    intro h
    rcases h with h | h | h | h | h
    · exact List.cons_ne_nil _ _ h
    all_goals (injection h with h1 _; exact absurd h1 (by decide))
  have hg2 : ¬(moneyBody d c = [] ∨ moneyBody d c = "-".data ∨
      moneyBody d c = "-   ".data) := by
    rw [hB]
    intro h
    rcases h with h | h | h
    · exact List.cons_ne_nil _ _ h
    all_goals (injection h with h1 _; exact digit_ne_of ha (by decide) h1)
  have hneg : ¬((moneyBody d c).head? = some '(' ∧ (moneyBody d c).getLast? = some ')') := by
    rw [hB, List.head?_cons]
    exact fun hand => digit_ne_of ha (by decide) (Option.some.inj hand.1)
  simp only [parseMoneyChars, hv0, hv1]
  rw [if_neg hg1, if_neg hg2, if_neg hneg, moneyBody_filter_commas hc,
    if_neg tail_gates, pyFloat_moneyTail hc]
  exact congrArg some (if_neg hneg)

/-- The cleaning walk of parse_money over the parenthesized rendering. -/
theorem parseMoneyChars_paren (d c : ℕ) (hc : c < 100) :
    parseMoneyChars ('(' :: (moneyBody d c ++ [')'])) =
      some (-((d : ℚ) + (c : ℚ) / 100)) := by
  have hsp : ∀ x ∈ '(' :: (moneyBody d c ++ [')']), isPySpace x = false := by
    intro x hx
    rcases List.mem_cons.mp hx with hx | hx
    · rw [hx]; decide
    · rcases List.mem_append.mp hx with hx | hx
      · exact moneyBody_not_space hc x hx
      · rcases List.mem_singleton.mp hx with hx
        rw [hx]; decide
  have hv0 : stripChars ('(' :: (moneyBody d c ++ [')'])) = '(' :: (moneyBody d c ++ [')']) :=
    stripChars_eq_self_of_all hsp
  have hv1 : stripChars (('(' :: (moneyBody d c ++ [')'])).filter
      (fun x => !(isMoneySymbol x))) = '(' :: (moneyBody d c ++ [')']) := by
    rw [List.filter_cons_of_pos (by decide), List.filter_append,
      List.filter_eq_self.mpr (fun x hx => by rw [moneyBody_not_symbol hc x hx]; rfl),
      List.filter_cons_of_pos (by decide)]
    exact stripChars_eq_self_of_all hsp
  have hg1 : ¬('(' :: (moneyBody d c ++ [')']) = [] ∨
      '(' :: (moneyBody d c ++ [')']) = "-".data ∨
      '(' :: (moneyBody d c ++ [')']) = "- ".data ∨
      '(' :: (moneyBody d c ++ [')']) = " -   ".data ∨
      '(' :: (moneyBody d c ++ [')']) = "#REF!".data) := by
    intro h
    rcases h with h | h | h | h | h
    · exact List.cons_ne_nil _ _ h
    all_goals (injection h with h1 _; exact absurd h1 (by decide))
  have hg2 : ¬('(' :: (moneyBody d c ++ [')']) = [] ∨
      '(' :: (moneyBody d c ++ [')']) = "-".data ∨
      '(' :: (moneyBody d c ++ [')']) = "-   ".data) := by
    intro h
    rcases h with h | h | h
    · exact List.cons_ne_nil _ _ h
    all_goals (injection h with h1 _; exact absurd h1 (by decide))
  have hneg : ('(' :: (moneyBody d c ++ [')'])).head? = some '(' ∧
      ('(' :: (moneyBody d c ++ [')'])).getLast? = some ')' := by
    constructor
    · rfl
    · rw [show '(' :: (moneyBody d c ++ [')']) = ('(' :: moneyBody d c) ++ [')'] by simp]
      exact List.getLast?_concat _
  have hv2 : ('(' :: (moneyBody d c ++ [')'])).tail.dropLast = moneyBody d c := by
    simp [List.dropLast_concat]
  simp only [parseMoneyChars, hv0, hv1]
  rw [if_neg hg1, if_neg hg2, if_pos hneg, hv2, moneyBody_filter_commas hc,
    if_neg tail_gates, pyFloat_moneyTail hc]
  exact congrArg some (if_pos hneg)

-- ==========================================================
-- C5: round-trip of the canonical currency renderings
-- ==========================================================

/-- C5: parse_money round-trips the canonical renderings: the dollar form
of any representable amount (d dollars, c cents) parses back to its exact
value, and the parenthesized accounting form parses to its negation.
Totality over string inputs holds by construction of the embedding: the
source wraps float() in a try/except that converts the only possible
exception into None, which the model realizes by returning an Option. -/
theorem parse_money_roundtrip (d c : ℕ) (hc : c < 100) :
    parse_money (some (renderCanonical d c)) = some ((d : ℚ) + (c : ℚ) / 100) ∧
    parse_money (some (renderParen d c)) = some (-((d : ℚ) + (c : ℚ) / 100)) :=
  ⟨parseMoneyChars_canonical d c hc, parseMoneyChars_paren d c hc⟩

/-- C5 witness: the round-trip theorem applied at 1,234.56, whose canonical
renderings are the exact example strings of the specification. -/
theorem parse_money_roundtrip_witness :
    renderCanonical 1234 56 = "$1,234.56" ∧ renderParen 1234 56 = "(1,234.56)" ∧
    parse_money (some (renderCanonical 1234 56)) =
      some (((1234 : ℕ) : ℚ) + ((56 : ℕ) : ℚ) / 100) ∧
    parse_money (some (renderParen 1234 56)) =
      some (-(((1234 : ℕ) : ℚ) + ((56 : ℕ) : ℚ) / 100)) :=
  ⟨by decide, by decide, (parse_money_roundtrip 1234 56 (by decide)).1,
    (parse_money_roundtrip 1234 56 (by decide)).2⟩

-- ==========================================================
-- normalize_name  (import_data.py lines 83-127)
-- ==========================================================

/-- Title casing with the running previous-character-is-cased flag, the ASCII
model of Python str.title. -/
def titleAux : Bool → List Char → List Char
  | _, [] => []
  | prev, c :: t =>
    (if isAlphaC c then (if prev then toLowerC c else toUpperC c) else c) ::
      titleAux (isAlphaC c) t

/-- ASCII model of Python str.title. -/
def pyTitle (l : List Char) : List Char := titleAux false l

/-- Left-to-right non-overlapping replacement of apostrophe-S-space by
apostrophe-s-space, with structural fuel so it evaluates by reduction. -/
def replaceAposF : ℕ → List Char → List Char
  | 0, l => l
  | _ + 1, [] => []
  | f + 1, a :: rest =>
    if a = aposChar ∧ rest.take 2 = ['S', ' '] then
      a :: 's' :: ' ' :: replaceAposF f (rest.drop 2)
    else a :: replaceAposF f rest

/-- Model of the possessive-capitalization repair replace call. -/
def replaceApos (l : List Char) : List Char := replaceAposF l.length l

/-- Collapse every whitespace run to a single space, the model of the
substitution by one space of each maximal whitespace run. -/
def collapseWsAux : Bool → List Char → List Char
  | _, [] => []
  | inRun, c :: t =>
    if isPySpace c then
      (if inRun then collapseWsAux true t else ' ' :: collapseWsAux true t)
    else c :: collapseWsAux false t

/-- Whitespace-run collapsing. -/
def collapseWs (l : List Char) : List Char := collapseWsAux false l

/-- True when the list starts with a whitespace character. -/
def headIsSpace : List Char → Bool
  | [] => false
  | c :: _ => isPySpace c

/-- Remove one trailing whitespace-then-digits run, the model of the anchored
substitution erasing trailing stray numbers. -/
def removeTrailingNum (l : List Char) : List Char :=
  let r := l.reverse
  let ds := r.takeWhile isDigitC
  let r2 := r.drop ds.length
  if ds ≠ [] ∧ headIsSpace r2 = true then (r2.dropWhile isPySpace).reverse else l

/-- Remove one trailing occurrence of the given suffix word preceded by
whitespace and optionally followed by whitespace and one asterisk, matched
case-insensitively: the model of the anchored administrative-suffix
substitutions. -/
def removeSuffixWord (w : List Char) (l : List Char) : List Char :=
  let r := l.reverse
  let r1 := if r.head? = some '*' then r.tail else r
  let r2 := r1.dropWhile isPySpace
  if lowerList (r2.take w.length) = (lowerList w).reverse ∧
      headIsSpace (r2.drop w.length) = true then
    ((r2.drop w.length).dropWhile isPySpace).reverse
  else l

/-- A word containing an interior apostrophe, assembled around the code
point so source quoting stays uniform. -/
def apostr (pre post : String) : List Char := pre.data ++ aposChar :: post.data

/-- The manual correction table for known name variants.  The Python dict
literal writes two of its keys twice with identical values; a dict collapses
duplicate keys, so each key appears once here. -/
def NAME_FIXES : List (List Char × List Char) :=
  [(apostr "Hart" "s Location", "Harts Location".data),
   (apostr "Hart" "s Loc", "Harts Location".data),
   ("Waterville Valley".data, "Waterville Valley".data),
   ("New Castle".data, "New Castle".data),
   ("Newcastle".data, "New Castle".data),
   (apostr "Wentworth" "s Location", "Wentworths Location".data),
   (apostr "Wentworth" "s Loc", "Wentworths Location".data)]

/-- Application of the correction table: a key maps to its value, any other
name is unchanged. -/
def nameFix (l : List Char) : List Char :=
  match NAME_FIXES.find? (fun p => p.1 = l) with
  | some p => p.2
  | none => l

/-- The closed list of lowercased non-town tokens rejected outright. -/
def blockedNames : List (List Char) :=
  ["".data, "state".data, "state total".data, "state totals".data,
   "state ave".data, "state average".data, "true".data, "false".data,
   "#ref!".data, "nan".data, "none".data, "profile".data, "loc #".data,
   "statewide total".data, "district".data, "total".data, "entitlement".data,
   "footnote".data, "districts".data, "base adequacy".data,
   "charter schools".data, "district id".data, "district name".data]

/-- Substrings whose presence marks report boilerplate to reject. -/
def rejectWords : List (List Char) :=
  ["expenditure".data, "footnote".data, "school year".data, "education aid".data,
   "equal opportunity".data, "department of".data, "tax rate".data,
   "tax assessment".data, "cover the".data, "budget".data, "revenue".data,
   "when tax".data, "academy".data, "compass classical".data,
   "village district".data, "co-op".data, "school district".data,
   "fall mountain".data, "dresden".data, "contoocook".data, "exeter region".data]

/-- The cleaning phase of normalize_name: trim, strip trailing footnote
markers, collapse whitespace, strip trailing stray numbers, then strip the
Cooperative, Coop and Regional suffixes, stripping whitespace after each
step exactly as the source does. -/
def cleanStage (l : List Char) : List Char :=
  let s2 := stripChars l
  let s3 := stripChars (dropTrailing (fun c => c = '*' || c = '#') s2)
  let s4 := stripChars (collapseWs s3)
  let s5 := stripChars (removeTrailingNum s4)
  let s6 := stripChars (removeSuffixWord "Cooperative".data s5)
  let s7 := stripChars (removeSuffixWord "Coop".data s6)
  stripChars (removeSuffixWord "Regional".data s7)

/-- normalize_name: canonicalize a raw municipality label or reject it. -/
def normalize_name (s : String) : Option String :=
  if s = "" then none
  else
    let l := cleanStage s.data
    if l = [] ∨ lowerList l ∈ blockedNames then none
    else if rejectWords.any (fun w => containsSub w (lowerList l)) then none
    else if 30 < l.length then none
    else some ⟨replaceApos (pyTitle (nameFix l))⟩

-- case lemmas for the ASCII character maps

theorem char_ofNat_toNat (c : Char) : Char.ofNat c.toNat = c := by
  apply Char.ext
  unfold Char.ofNat
  have hv : c.toNat.isValidChar := by
    have := c.valid
    unfold UInt32.isValidChar at this
    exact this
  rw [dif_pos hv]
  simp only [Char.ofNatAux]
  apply UInt32.ext
  simp [UInt32.toNat, UInt32.ofNat', Char.toNat]

theorem char_toNat_ofNat {n : ℕ} (h : n < 55296) : (Char.ofNat n).toNat = n := by
  unfold Char.ofNat
  rw [dif_pos (Or.inl (by omega : n < 0xd800))]
  simp only [Char.ofNatAux, Char.toNat]
  simp [UInt32.toNat, UInt32.ofNat', BitVec.toNat_ofNat]

theorem toLowerC_toUpperC (c : Char) : toLowerC (toUpperC c) = toLowerC c := by
  unfold toUpperC toLowerC
  by_cases h : 97 ≤ c.toNat ∧ c.toNat ≤ 122
  · rw [if_pos h, char_toNat_ofNat (by omega), if_pos (by omega), if_neg (by omega),
      show c.toNat - 32 + 32 = c.toNat by omega, char_ofNat_toNat]
  · rw [if_neg h]

theorem toUpperC_toLowerC (c : Char) : toUpperC (toLowerC c) = toUpperC c := by
  unfold toLowerC toUpperC
  by_cases h : 65 ≤ c.toNat ∧ c.toNat ≤ 90
  · rw [if_pos h, char_toNat_ofNat (by omega), if_pos (by omega), if_neg (by omega),
      show c.toNat + 32 - 32 = c.toNat by omega, char_ofNat_toNat]
  · rw [if_neg h]

theorem isAlphaC_toLowerC (c : Char) : isAlphaC (toLowerC c) = isAlphaC c := by
  unfold isAlphaC toLowerC
  by_cases h : 65 ≤ c.toNat ∧ c.toNat ≤ 90
  · rw [if_pos h, char_toNat_ofNat (by omega)]
    exact decide_eq_decide.mpr (by omega)
  · rw [if_neg h]

theorem isAlphaC_toUpperC (c : Char) : isAlphaC (toUpperC c) = isAlphaC c := by
  unfold isAlphaC toUpperC
  by_cases h : 97 ≤ c.toNat ∧ c.toNat ≤ 122
  · rw [if_pos h, char_toNat_ofNat (by omega)]
    exact decide_eq_decide.mpr (by omega)
  · rw [if_neg h]

theorem toLowerC_toLowerC (c : Char) : toLowerC (toLowerC c) = toLowerC c := by
  have h := toLowerC_toUpperC (toLowerC c)
  rw [toUpperC_toLowerC, toLowerC_toUpperC] at h
  exact h.symm

-- length and lowercase preservation of the title and replace passes

theorem lowerList_cons (c : Char) (l : List Char) :
    lowerList (c :: l) = toLowerC c :: lowerList l := rfl

theorem length_titleAux : ∀ (b : Bool) (l : List Char), (titleAux b l).length = l.length := by
  intro b l
  induction l generalizing b with
  | nil => rfl
  | cons c t ih => simp [titleAux, ih]

theorem lowerList_titleAux :
    ∀ (b : Bool) (l : List Char), lowerList (titleAux b l) = lowerList l := by
  intro b l
  induction l generalizing b with
  | nil => rfl
  | cons c t ih =>
    simp only [titleAux, lowerList_cons, ih (isAlphaC c)]
    congr 1
    by_cases ha : isAlphaC c
    · rw [if_pos ha]
      cases b with
      | false => exact toLowerC_toUpperC c
      | true => exact toLowerC_toLowerC c
    · rw [if_neg ha]

theorem take_two_eq {l : List Char} {a b : Char} (h : l.take 2 = [a, b]) :
    l = a :: b :: l.drop 2 := by
  cases l with
  | nil => cases h
  | cons x xs =>
    cases xs with
    | nil => cases h
    | cons y ys =>
      have h2 : x = a ∧ y = b := by
        rw [show (x :: y :: ys).take 2 = [x, y] from rfl] at h
        have h3 := List.cons.injEq x [y] a [b] ▸ h
        have h4 := List.cons.injEq y [] b [] ▸ h3.2
        exact ⟨h3.1, h4.1⟩
      rw [h2.1, h2.2]
      rfl

theorem length_replaceAposF :
    ∀ (f : ℕ) (l : List Char), (replaceAposF f l).length = l.length := by
  intro f
  induction f with
  | zero => intro l; rfl
  | succ f ih =>
    intro l
    cases l with
    | nil => rfl
    | cons a rest =>
      by_cases hm : a = aposChar ∧ rest.take 2 = ['S', ' ']
      · rw [replaceAposF, if_pos hm]
        have h2 : 2 ≤ rest.length := by
          have := congrArg List.length hm.2
          simp [List.length_take] at this
          omega
        simp [ih, List.length_drop]
        omega
      · rw [replaceAposF, if_neg hm]
        simp [ih]

theorem lowerList_replaceAposF :
    ∀ (f : ℕ) (l : List Char), lowerList (replaceAposF f l) = lowerList l := by
  intro f
  induction f with
  | zero => intro l; rfl
  | succ f ih =>
    intro l
    cases l with
    | nil => rfl
    | cons a rest =>
      by_cases hm : a = aposChar ∧ rest.take 2 = ['S', ' ']
      · rw [replaceAposF, if_pos hm]
        have hr : rest = 'S' :: ' ' :: rest.drop 2 := take_two_eq hm.2
        generalize hg : rest.drop 2 = r2 at hr ⊢
        rw [hr]
        simp only [lowerList_cons, ih]
        rfl
      · rw [replaceAposF, if_neg hm]
        simp only [lowerList_cons, ih]

theorem length_replaceApos (l : List Char) : (replaceApos l).length = l.length :=
  length_replaceAposF l.length l

theorem lowerList_replaceApos (l : List Char) : lowerList (replaceApos l) = lowerList l :=
  lowerList_replaceAposF l.length l

-- a case-equivalence relation: equal characters, or cased characters with
-- the same lowercase image; title casing cannot distinguish related lists

def cePair (a b : Char) : Prop :=
  a = b ∨ (isAlphaC a = true ∧ isAlphaC b = true ∧ toLowerC a = toLowerC b)

def caseEq : List Char → List Char → Prop := List.Forall₂ cePair

theorem titleAux_congr {x y : List Char} (h : caseEq x y) :
    ∀ b, titleAux b x = titleAux b y := by
  induction h with
  | nil => intro b; rfl
  | @cons a b' tx ty hab htail ih =>
    intro bb
    rcases hab with hab | ⟨ha, hb, hl⟩
    · rw [hab]
      simp only [titleAux]
      rw [ih (isAlphaC b')]
    · have hup : toUpperC a = toUpperC b' := by
        rw [← toUpperC_toLowerC a, hl, toUpperC_toLowerC]
      simp only [titleAux, ha, hb, if_true]
      rw [ih true]
      congr 1
      cases bb with
      | true => simp [hl]
      | false => simp [hup]

theorem caseEq_titleAux_self : ∀ (b : Bool) (l : List Char), caseEq (titleAux b l) l := by
  intro b l
  induction l generalizing b with
  | nil => exact List.Forall₂.nil
  | cons c t ih =>
    simp only [titleAux]
    refine List.Forall₂.cons ?_ (ih (isAlphaC c))
    by_cases ha : isAlphaC c
    · rw [if_pos ha]
      cases b with
      | true => exact Or.inr ⟨(isAlphaC_toLowerC c).trans ha, ha, toLowerC_toLowerC c⟩
      | false => exact Or.inr ⟨(isAlphaC_toUpperC c).trans ha, ha, toLowerC_toUpperC c⟩
    · rw [if_neg ha]
      exact Or.inl rfl

theorem caseEq_replaceAposF_self : ∀ (f : ℕ) (l : List Char), caseEq (replaceAposF f l) l := by
  intro f
  induction f with
  | zero =>
    intro l
    exact List.forall₂_same.mpr (fun x _ => Or.inl rfl)
  | succ f ih =>
    intro l
    cases l with
    | nil => exact List.Forall₂.nil
    | cons a rest =>
      by_cases hm : a = aposChar ∧ rest.take 2 = ['S', ' ']
      · rw [replaceAposF, if_pos hm]
        have hr : rest = 'S' :: ' ' :: rest.drop 2 := take_two_eq hm.2
        generalize hg : rest.drop 2 = r2 at hr ⊢
        rw [hr]
        exact List.Forall₂.cons (Or.inl rfl) (List.Forall₂.cons (Or.inr (by decide))
          (List.Forall₂.cons (Or.inl rfl) (ih _)))
      · rw [replaceAposF, if_neg hm]
        exact List.Forall₂.cons (Or.inl rfl) (ih rest)

theorem pyTitle_pyTitle (l : List Char) : pyTitle (pyTitle l) = pyTitle l :=
  titleAux_congr (caseEq_titleAux_self false l) false

theorem pyTitle_replaceApos_pyTitle (l : List Char) :
    pyTitle (replaceApos (pyTitle l)) = pyTitle l := by
  have h := titleAux_congr (caseEq_replaceAposF_self (pyTitle l).length (pyTitle l)) false
  show titleAux false (replaceApos (pyTitle l)) = titleAux false l
  rw [show replaceApos (pyTitle l) = replaceAposF (pyTitle l).length (pyTitle l) from rfl, h]
  exact pyTitle_pyTitle l

theorem post_idem (l : List Char) :
    replaceApos (pyTitle (replaceApos (pyTitle l))) = replaceApos (pyTitle l) := by
  rw [pyTitle_replaceApos_pyTitle]

theorem lowerList_pyTitle (l : List Char) : lowerList (pyTitle l) = lowerList l :=
  lowerList_titleAux false l

theorem length_pyTitle (l : List Char) : (pyTitle l).length = l.length :=
  length_titleAux false l

-- facts about the correction table

theorem nameFix_cases (l : List Char) :
    nameFix l = l ∨ nameFix l = "Harts Location".data ∨
    nameFix l = "Waterville Valley".data ∨ nameFix l = "New Castle".data ∨
    nameFix l = "Wentworths Location".data := by
  unfold nameFix
  cases hf : NAME_FIXES.find? (fun p => p.1 = l) with
  | none => exact Or.inl rfl
  | some p =>
    have hp := List.mem_of_find?_eq_some hf
    simp only [NAME_FIXES, List.mem_cons, List.not_mem_nil, or_false] at hp
    rcases hp with rfl | rfl | rfl | rfl | rfl | rfl | rfl
    exacts [Or.inr (Or.inl rfl), Or.inr (Or.inl rfl),
      Or.inr (Or.inr (Or.inl rfl)),
      Or.inr (Or.inr (Or.inr (Or.inl rfl))), Or.inr (Or.inr (Or.inr (Or.inl rfl))),
      Or.inr (Or.inr (Or.inr (Or.inr rfl))), Or.inr (Or.inr (Or.inr (Or.inr rfl)))]

theorem nameFix_ne_nil (l : List Char) (h : l ≠ []) : nameFix l ≠ [] := by
  rcases nameFix_cases l with hf | hf | hf | hf | hf <;> rw [hf]
  · exact h
  all_goals decide

/-- Characterization of an accepted normalization. -/
theorem normalize_name_eq_some {s t : String} :
    normalize_name s = some t ↔
      s ≠ "" ∧ ¬(cleanStage s.data = [] ∨ lowerList (cleanStage s.data) ∈ blockedNames) ∧
      (rejectWords.any (fun w => containsSub w (lowerList (cleanStage s.data)))) = false ∧
      ¬(30 < (cleanStage s.data).length) ∧
      t = ⟨replaceApos (pyTitle (nameFix (cleanStage s.data)))⟩ := by
  simp only [normalize_name]
  split_ifs with h1 h2 h3 h4
  · exact ⟨fun h => False.elim h, fun ⟨hs, _⟩ => absurd h1 hs⟩
  · exact ⟨fun h => False.elim h, fun ⟨_, hb, _⟩ => absurd h2 hb⟩
  · refine ⟨fun h => False.elim h, fun ⟨_, _, hr, _⟩ => ?_⟩
    rw [h3] at hr
    cases hr
  · exact ⟨fun h => False.elim h, fun ⟨_, _, _, hl, _⟩ => absurd h4 hl⟩
  · constructor
    · intro h
      exact ⟨h1, h2, by simpa using h3, h4, (Option.some.inj h).symm⟩
    · rintro ⟨_, _, _, _, rfl⟩
      rfl

-- ==========================================================
-- C3: idempotency of normalize_name
-- ==========================================================

/-- C3 counterexample: normalize_name is not idempotent.  A name carrying
two stacked Coop suffixes loses one per pass, because each anchored
substitution removes only the final occurrence: the first pass accepts
A Coop Coop as A Coop, and renormalizing that accepted output strips the
remaining suffix down to A. -/
theorem normalize_name_not_idempotent :
    normalize_name "A Coop Coop" = some "A Coop" ∧
    (normalize_name "A Coop Coop").bind normalize_name = some "A" ∧
    (normalize_name "A Coop Coop").bind normalize_name ≠ normalize_name "A Coop Coop" :=
  ⟨by decide, by decide, by decide⟩

/-- C3 amended: normalize_name is idempotent on every input whose accepted
output is stable under the cleaning phase (it retains no strippable suffix,
marker or trailing number) and is not remapped by the correction table; a
rejected input propagates to an absent result.  The excluded inputs are
exactly the two counterexample families: names whose cleaned form still ends
in a removable suffix, and names the correction table rewrites on a second
pass. -/
theorem normalize_name_stable_idempotent (s : String)
    (H : ∀ t, normalize_name s = some t →
      cleanStage t.data = t.data ∧ nameFix t.data = t.data) :
    (normalize_name s).bind normalize_name = normalize_name s := by
  cases hn : normalize_name s with
  | none => rfl
  | some t =>
    obtain ⟨hclean, hfix⟩ := H t hn
    show normalize_name t = some t
    obtain ⟨hs, hb, hr, hlen, ht⟩ := normalize_name_eq_some.mp hn
    have hLne : cleanStage s.data ≠ [] := fun h => hb (Or.inl h)
    have htd : t.data = replaceApos (pyTitle (nameFix (cleanStage s.data))) := by
      rw [ht]
    have hlow : lowerList t.data = lowerList (nameFix (cleanStage s.data)) := by
      rw [htd, lowerList_replaceApos, lowerList_pyTitle]
    have hlen2 : t.data.length = (nameFix (cleanStage s.data)).length := by
      rw [htd, length_replaceApos, length_pyTitle]
    have hacc : ¬(t.data = [] ∨ lowerList t.data ∈ blockedNames) ∧
        (rejectWords.any (fun w => containsSub w (lowerList t.data))) = false ∧
        ¬(30 < t.data.length) := by
      rcases nameFix_cases (cleanStage s.data) with hf | hf | hf | hf | hf
      · rw [hf] at hlow hlen2
        refine ⟨?_, ?_, ?_⟩
        · intro h
          rcases h with h | h
          · rw [h] at hlen2
            exact hLne (List.length_eq_zero.mp hlen2.symm)
          · rw [hlow] at h
            exact hb (Or.inr h)
        · rw [hlow]
          exact hr
        · rw [hlen2]
          exact hlen
      all_goals {
        rw [hf] at hlow hlen2
        refine ⟨?_, ?_, ?_⟩
        · intro h
          rcases h with h | h
          · rw [h] at hlen2
            exact absurd hlen2 (by decide)
          · rw [hlow] at h
            revert h
            decide
        · rw [hlow]
          decide
        · rw [hlen2]
          decide }
    apply normalize_name_eq_some.mpr
    have hne : t.data ≠ [] := fun h0 => hacc.1 (Or.inl h0)
    refine ⟨?_, ?_, ?_, ?_, ?_⟩
    · intro h
      exact hne (by rw [h])
    · rw [hclean]
      exact hacc.1
    · rw [hclean]
      exact hacc.2.1
    · rw [hclean]
      exact hacc.2.2
    · rw [hclean, hfix, htd, post_idem]
      exact ht

/-- C3 witness: the amended idempotency applied at a concrete accepted name
whose output is clean-stable and fix-stable. -/
theorem normalize_name_stable_idempotent_witness :
    (normalize_name "concord").bind normalize_name = normalize_name "concord" :=
  normalize_name_stable_idempotent "concord" (fun t ht => by
    rw [show normalize_name "concord" = some "Concord" from by decide] at ht
    have h2 : "Concord" = t := Option.some.inj ht
    rw [← h2]
    exact ⟨by decide, by decide⟩)

-- ==========================================================
-- is_municipality_row  (import_data.py lines 130-156)
-- ==========================================================

/-- True when the list starts with an ASCII letter, the model of the regex
match requiring a leading alphabetic character. -/
def headIsAlpha : List Char → Bool
  | [] => false
  | c :: _ => isAlphaC c

/-- The denylist of row prefixes that mark header, total, footnote or agency
rows, in source order. -/
def skipPatterns : List String :=
  ["state total", "state totals", "state ave", "state", "fy",
   "new hampshire", "department", "division", "bureau", "pleasant",
   "telephone", "fax", "adequacy", "base cost", "adm", "per pupil",
   "replaces", "october", "november", "december", "january", "february",
   "march", "april", "may", "june", "july", "august", "september",
   "see footnote", "k <=", "per thousand", "#ref!", "from evals",
   "from eoy", "true", "false", "grant", "calculation", "formula",
   "rsa", "statewide", "enhanced", "targeted", "transition",
   "equitable", "education", "cost of", "information", "commissioner",
   "estimated", "municipal", "loc #", "loc#", "district"]

/-- is_municipality_row: decide whether a raw row holds municipality data.
The row is rejected when it is too short, its name cell is blank, the
lowercased name starts with a denylist pattern, or it does not begin with a
letter. -/
def is_municipality_row (row : List String) (name_col : ℕ) : Bool :=
  if row.length ≤ name_col then false
  else
    let name := stripChars (row.getD name_col "").data
    if name = [] then false
    else if skipPatterns.any (fun p => p.data.isPrefixOf (lowerList name)) then false
    else headIsAlpha name

-- ==========================================================
-- C9: rejection of State Total rows
-- ==========================================================

/-- C9 counterexample: the claim says any row whose name cell contains the
substring State Total in any position is rejected, but the classifier only
matches its denylist by prefix: a name with State Total in the middle is
accepted. -/
theorem is_municipality_row_contains_state_total :
    containsSub "state total".data (lowerList (stripChars "Abc State Total".data)) = true ∧
    is_municipality_row ["Abc State Total", "5"] 0 = true :=
  ⟨by decide, by decide⟩

/-- C9 amended: a row whose name cell starts with state total (after
stripping and lowercasing) is rejected by the classifier, regardless of the
other columns: the denylist match is by prefix, not by substring. -/
theorem is_municipality_row_rejects_state_total (row : List String) (nc : ℕ)
    (h : "state total".data.isPrefixOf
      (lowerList (stripChars ((row.getD nc "").data))) = true) :
    is_municipality_row row nc = false := by
  simp only [is_municipality_row]
  split_ifs with h1 h2 h3
  · rfl
  · rfl
  · rfl
  · exfalso
    exact h3 (List.any_eq_true.mpr ⟨"state total", by decide, h⟩)

/-- C9 witness: the amended rejection applied at a concrete State Total
row with numeric columns present. -/
theorem is_municipality_row_rejects_state_total_witness :
    is_municipality_row ["  State Total", "1234", "99"] 0 = false :=
  is_municipality_row_rejects_state_total ["  State Total", "1234", "99"] 0 (by decide)

-- ==========================================================
-- upsert_adequacy  (import_data.py lines 199-220)
-- ==========================================================

/-- The value columns of the adequacy_aid table, from its schema. -/
inductive AdequacyField where
  | adm | base_adequacy_aid | fr_aid | sped_differentiated_aid | ell_aid
  | home_ed_aid | grade3_reading_aid | total_cost_adequate_ed | swept
  | extraordinary_needs_grant | hold_harmless_grant | fiscal_capacity_aid
  | stabilization_grant | total_adequacy_grant | total_state_grant
  | base_cost_per_pupil | swept_rate | fr_adm | sped_adm | ell_adm
deriving DecidableEq

/-- One adequacy_aid record: its key and a sparse assignment of the value
columns, none standing for SQL NULL. -/
structure AdequacyRow where
  municipality_id : ℤ
  fiscal_year : ℤ
  fields : AdequacyField → Option ℚ

/-- The column assignment an INSERT produces: listed columns take their
supplied values (null included), unlisted columns default to NULL. -/
def applyKwargsInsert (kwargs : List (AdequacyField × Option ℚ)) :
    AdequacyField → Option ℚ :=
  kwargs.foldl (fun f p => Function.update f p.1 p.2) (fun _ => none)

/-- The column assignment an UPDATE produces: only keyword arguments with
non-null values are written, every other column keeps its stored value. -/
def applyKwargsUpdate (f : AdequacyField → Option ℚ)
    (kwargs : List (AdequacyField × Option ℚ)) : AdequacyField → Option ℚ :=
  kwargs.foldl (fun g p => if p.2.isSome then Function.update g p.1 p.2 else g) f

/-- The WHERE clause of upsert_adequacy. -/
def adequacyKeyMatch (mid fy : ℤ) (r : AdequacyRow) : Bool :=
  decide (r.municipality_id = mid ∧ r.fiscal_year = fy)

/-- upsert_adequacy: a None municipality id is a no-op; otherwise update the
matching record with the non-null keyword fields when one exists, and insert
a fresh record with the supplied fields when none does. -/
def upsert_adequacy (table : List AdequacyRow) (muni_id : Option ℤ) (fy : ℤ)
    (kwargs : List (AdequacyField × Option ℚ)) : List AdequacyRow :=
  match muni_id with
  | none => table
  | some mid =>
    if table.any (adequacyKeyMatch mid fy) then
      table.map (fun r => if adequacyKeyMatch mid fy r then
        { r with fields := applyKwargsUpdate r.fields kwargs } else r)
    else
      table ++ [⟨mid, fy, applyKwargsInsert kwargs⟩]

-- ==========================================================
-- C10: None municipality id is a no-op
-- ==========================================================

/-- C10: calling upsert_adequacy with a None municipality id returns before
touching the table: for every fiscal year and keyword field set the stored
state is unchanged, so a name the normalizer rejected silently produces no
record at the upsert layer. -/
theorem upsert_adequacy_none_noop (table : List AdequacyRow) (fy : ℤ)
    (kwargs : List (AdequacyField × Option ℚ)) :
    upsert_adequacy table none fy kwargs = table := rfl

-- ==========================================================
-- C6: commutativity across disjoint field sets
-- ==========================================================

theorem upsert_fresh_insert {t0 : List AdequacyRow} {k y : ℤ}
    (h0 : ∀ r ∈ t0, ¬(r.municipality_id = k ∧ r.fiscal_year = y))
    (kwargs : List (AdequacyField × Option ℚ)) :
    upsert_adequacy t0 (some k) y kwargs =
      t0 ++ [⟨k, y, applyKwargsInsert kwargs⟩] := by
  show (if t0.any (adequacyKeyMatch k y) then _ else t0 ++ [⟨k, y, applyKwargsInsert kwargs⟩]) =
    t0 ++ [⟨k, y, applyKwargsInsert kwargs⟩]
  rw [if_neg]
  intro hany
  obtain ⟨r, hr, hm⟩ := List.any_eq_true.mp hany
  exact h0 r hr (of_decide_eq_true hm)

theorem upsert_existing_update {t0 : List AdequacyRow} {k y : ℤ}
    (hex : ∃ r ∈ t0, r.municipality_id = k ∧ r.fiscal_year = y)
    (kwargs : List (AdequacyField × Option ℚ)) :
    upsert_adequacy t0 (some k) y kwargs =
      t0.map (fun r => if adequacyKeyMatch k y r then
        { r with fields := applyKwargsUpdate r.fields kwargs } else r) := by
  obtain ⟨r, hr, hm⟩ := hex
  show (if t0.any (adequacyKeyMatch k y) then
      t0.map (fun r => if adequacyKeyMatch k y r then
        { r with fields := applyKwargsUpdate r.fields kwargs } else r) else _) = _
  rw [if_pos (List.any_eq_true.mpr ⟨r, hr, decide_eq_true hm⟩)]

/-- C6: starting from no record at the key, upserting field a with 1 and
then field b with 2 commutes with the reverse order for distinct fields a
and b, and both orders store one fresh record carrying a = 1 and b = 2. -/
theorem upsert_adequacy_comm (t0 : List AdequacyRow) (k y : ℤ)
    (a b : AdequacyField) (hab : a ≠ b)
    (h0 : ∀ r ∈ t0, ¬(r.municipality_id = k ∧ r.fiscal_year = y)) :
    upsert_adequacy (upsert_adequacy t0 (some k) y [(a, some 1)]) (some k) y [(b, some 2)] =
      upsert_adequacy (upsert_adequacy t0 (some k) y [(b, some 2)]) (some k) y [(a, some 1)] ∧
    upsert_adequacy (upsert_adequacy t0 (some k) y [(a, some 1)]) (some k) y [(b, some 2)] =
      t0 ++ [⟨k, y, fun f => if f = a then some 1 else if f = b then some 2 else none⟩] := by
  have step : ∀ (x z : AdequacyField) (vx vz : ℚ),
      upsert_adequacy (upsert_adequacy t0 (some k) y [(x, some vx)]) (some k) y
          [(z, some vz)] =
        t0 ++ [⟨k, y, Function.update (Function.update (fun _ => none) x (some vx))
            z (some vz)⟩] := by
    intro x z vx vz
    have hex2 : ∃ r ∈ t0 ++ [(⟨k, y, applyKwargsInsert [(x, some vx)]⟩ : AdequacyRow)],
        r.municipality_id = k ∧ r.fiscal_year = y :=
      ⟨⟨k, y, applyKwargsInsert [(x, some vx)]⟩, by simp, rfl, rfl⟩
    rw [upsert_fresh_insert h0, upsert_existing_update hex2, List.map_append]
    congr 1
    · calc t0.map _ = t0.map id := List.map_congr_left (fun r hr => by
            have hnc : ¬(adequacyKeyMatch k y r = true) :=
              fun hc => h0 r hr (of_decide_eq_true hc)
            rw [if_neg hnc]
            rfl)
        _ = t0 := List.map_id t0
    · simp only [List.map_cons, List.map_nil]
      rw [if_pos (by simp [adequacyKeyMatch])]
      rfl
  refine ⟨?_, ?_⟩
  · rw [step a b 1 2, step b a 2 1]
    refine congrArg (fun f => t0 ++ [(⟨k, y, f⟩ : AdequacyRow)]) ?_
    exact Function.update_comm hab _ _ _
  · rw [step a b 1 2]
    refine congrArg (fun f => t0 ++ [(⟨k, y, f⟩ : AdequacyRow)]) ?_
    funext f
    by_cases hfb : f = b
    · subst hfb
      rw [Function.update_same, if_neg (fun hh => hab hh.symm), if_pos rfl]
    · rw [Function.update_noteq hfb]
      by_cases hfa : f = a
      · subst hfa
        rw [Function.update_same, if_pos rfl]
      · rw [Function.update_noteq hfa, if_neg hfa, if_neg hfb]

/-- C6 witness: commutativity applied at a concrete empty table, key and
distinct field pair. -/
theorem upsert_adequacy_comm_witness :
    upsert_adequacy (upsert_adequacy [] (some 1) 2020 [(AdequacyField.adm, some 1)])
        (some 1) 2020 [(AdequacyField.swept, some 2)] =
      upsert_adequacy (upsert_adequacy [] (some 1) 2020 [(AdequacyField.swept, some 2)])
        (some 1) 2020 [(AdequacyField.adm, some 1)] :=
  (upsert_adequacy_comm [] 1 2020 AdequacyField.adm AdequacyField.swept
    (by decide) (by simp)).1

-- ==========================================================
-- C7: updates touch only the non-null supplied fields
-- ==========================================================

theorem applyKwargsUpdate_frame :
    ∀ (kwargs : List (AdequacyField × Option ℚ)) (f : AdequacyField → Option ℚ)
      (fld : AdequacyField), (∀ v : ℚ, (fld, some v) ∉ kwargs) →
      applyKwargsUpdate f kwargs fld = f fld := by
  intro kwargs
  induction kwargs with
  | nil => intro f fld _; rfl
  | cons p t ih =>
    intro f fld hfld
    obtain ⟨g, w⟩ := p
    have htail : ∀ v : ℚ, (fld, some v) ∉ t :=
      fun v hv => hfld v (List.mem_cons_of_mem _ hv)
    cases w with
    | none => exact ih f fld htail
    | some v0 =>
      have hg : g ≠ fld := by
        intro hg
        exact hfld v0 (by rw [hg]; exact List.mem_cons_self _ _)
      exact (ih _ fld htail).trans (Function.update_noteq (Ne.symm hg) _ _)

/-- C7: when a record already exists at the key, upsert_adequacy keeps the
table length, and every stored row keeps its key and keeps the value of
every field that is not supplied, or supplied only as null, in this call. -/
theorem upsert_adequacy_frame (t0 : List AdequacyRow) (k y : ℤ)
    (kwargs : List (AdequacyField × Option ℚ))
    (hex : ∃ r ∈ t0, r.municipality_id = k ∧ r.fiscal_year = y) :
    (upsert_adequacy t0 (some k) y kwargs).length = t0.length ∧
    ∀ r' ∈ upsert_adequacy t0 (some k) y kwargs, ∃ r ∈ t0,
      r'.municipality_id = r.municipality_id ∧ r'.fiscal_year = r.fiscal_year ∧
      ∀ fld : AdequacyField, (∀ v : ℚ, (fld, some v) ∉ kwargs) →
        r'.fields fld = r.fields fld := by
  rw [upsert_existing_update hex]
  refine ⟨List.length_map _ _, ?_⟩
  intro r' hr'
  obtain ⟨r, hr, hmap⟩ := List.mem_map.mp hr'
  by_cases hm : adequacyKeyMatch k y r
  · rw [if_pos hm] at hmap
    exact ⟨r, hr, by rw [← hmap], by rw [← hmap],
      fun fld hfld => by rw [← hmap]; exact applyKwargsUpdate_frame kwargs r.fields fld hfld⟩
  · rw [if_neg hm] at hmap
    exact ⟨r, hr, by rw [← hmap], by rw [← hmap], fun fld _ => by rw [← hmap]⟩

/-- C7 witness: the frame property applied at a one-row table and a call
that supplies one field as null, which therefore changes nothing. -/
theorem upsert_adequacy_frame_witness :
    (upsert_adequacy [⟨1, 2020, fun _ => some 7⟩] (some 1) 2020
        [(AdequacyField.adm, none)]).length =
      ([⟨1, 2020, fun _ => some 7⟩] : List AdequacyRow).length ∧
    ∀ r' ∈ upsert_adequacy [⟨1, 2020, fun _ => some 7⟩] (some 1) 2020
        [(AdequacyField.adm, none)],
      ∃ r ∈ ([⟨1, 2020, fun _ => some 7⟩] : List AdequacyRow),
      r'.municipality_id = r.municipality_id ∧ r'.fiscal_year = r.fiscal_year ∧
      ∀ fld : AdequacyField, (∀ v : ℚ, (fld, some v) ∉
          ([(AdequacyField.adm, none)] : List (AdequacyField × Option ℚ))) →
        r'.fields fld = r.fields fld :=
  upsert_adequacy_frame _ 1 2020 [(AdequacyField.adm, none)]
    ⟨⟨1, 2020, fun _ => some 7⟩, List.mem_singleton.mpr rfl, rfl, rfl⟩

-- ==========================================================
-- import_fy06 row extraction  (import_data.py lines 258-296)
-- ==========================================================

/-- The name prefixes the FY06 parser skips. -/
def fy06SkipPrefixes : List String :=
  ["state", "fy", "statewide", "enhanced", "ed tax", "per thousand"]

/-- The per-row extraction of import_fy06: classify the row, normalize the
name, parse the fixed columns, derive the adequacy grant as the combined
total state aid minus the SWEPT offset clamped at zero, and return the
canonical name together with the keyword fields handed to upsert_adequacy.
The source also parses two intermediate columns it never stores; being pure,
those calls do not affect the produced record. -/
def import_fy06_row (row : List String) :
    Option (List Char × List (AdequacyField × Option ℚ)) :=
  if row.length < 11 then none
  else
    let name_str := stripChars (row.getD 0 "").data
    if headIsAlpha name_str = false then none
    else if fy06SkipPrefixes.any (fun p => p.data.isPrefixOf (lowerList name_str)) then none
    else
      match normalize_name ⟨name_str⟩ with
      | none => none
      | some nm =>
        let adm := parse_money (some (row.getD 1 ""))
        let swept := parse_money (some (row.getD 9 ""))
        let total_state := parse_money (some (row.getD 10 ""))
        let g := total_state.getD 0 - swept.getD 0
        let adequacy_grant : ℚ := if g < 0 then 0 else g
        some (nm.data,
          [(AdequacyField.adm, adm),
           (AdequacyField.total_adequacy_grant, some adequacy_grant),
           (AdequacyField.swept, swept),
           (AdequacyField.total_state_grant, total_state),
           (AdequacyField.base_cost_per_pupil, some 3917),
           (AdequacyField.swept_rate, some 2.84)])

-- ==========================================================
-- C8: the total-only era clamps the derived adequacy grant
-- ==========================================================

theorem ite_neg_eq_max (x : ℚ) : (if x < 0 then (0 : ℚ) else x) = max 0 x := by
  rcases lt_or_le x 0 with h | h
  · rw [if_pos h, max_eq_left h.le]
  · rw [if_neg (not_lt.mpr h), max_eq_right h]

/-- C8: for every row the FY06 parser accepts, the stored adequacy-grant
component equals the parsed total state grant minus the parsed SWEPT offset,
clamped to a minimum of zero. -/
theorem import_fy06_row_clamps (row : List String) (nm : List Char)
    (kw : List (AdequacyField × Option ℚ))
    (h : import_fy06_row row = some (nm, kw)) :
    kw.find? (fun p => p.1 = AdequacyField.total_adequacy_grant) =
      some (AdequacyField.total_adequacy_grant,
        some (max 0 ((parse_money (some (row.getD 10 ""))).getD 0 -
          (parse_money (some (row.getD 9 ""))).getD 0))) := by
  simp only [import_fy06_row] at h
  split_ifs at h with h1 h2 h3 h4
  all_goals
    cases hno : normalize_name ⟨stripChars (row.getD 0 "").data⟩ with
    | none => rw [hno] at h; cases h
    | some nm0 =>
      rw [hno] at h
      have hkw := (Prod.mk.injEq _ _ _ _ ▸ Option.some.inj h).2
      rw [← hkw]
      first
      | (show some (AdequacyField.total_adequacy_grant, some (0 : ℚ)) = _
         rw [max_eq_left (le_of_lt h4)])
      | (show some (AdequacyField.total_adequacy_grant,
           some ((parse_money (some (row.getD 10 ""))).getD 0 -
             (parse_money (some (row.getD 9 ""))).getD 0)) = _
         rw [max_eq_right (not_lt.mp h4)])

/-- The concrete FY06 scenario row: total state grant 1000, SWEPT 1200. -/
def fy06ExampleRow : List String :=
  ["Concord", "100", "", "", "", "", "", "", "", "1200", "1000"]

/-- The keyword fields the FY06 parser produces for the scenario row. -/
def fy06ExampleKwargs : List (AdequacyField × Option ℚ) :=
  [(AdequacyField.adm, parse_money (some "100")),
   (AdequacyField.total_adequacy_grant,
     some (if (parse_money (some "1000")).getD 0 - (parse_money (some "1200")).getD 0 < 0
       then 0
       else (parse_money (some "1000")).getD 0 - (parse_money (some "1200")).getD 0)),
   (AdequacyField.swept, parse_money (some "1200")),
   (AdequacyField.total_state_grant, parse_money (some "1000")),
   (AdequacyField.base_cost_per_pupil, some 3917),
   (AdequacyField.swept_rate, some 2.84)]

/-- C8 witness: the clamp theorem applied at the scenario row, where the
derivation 1000 minus 1200 clamps to zero rather than storing minus 200. -/
theorem import_fy06_row_clamps_witness :
    import_fy06_row fy06ExampleRow = some ("Concord".data, fy06ExampleKwargs) ∧
    fy06ExampleKwargs.find? (fun p => p.1 = AdequacyField.total_adequacy_grant) =
      some (AdequacyField.total_adequacy_grant,
        some (max 0 ((parse_money (some (fy06ExampleRow.getD 10 ""))).getD 0 -
          (parse_money (some (fy06ExampleRow.getD 9 ""))).getD 0))) ∧
    (parse_money (some "1000")).getD 0 - (parse_money (some "1200")).getD 0 =
      ((1000 : ℕ) : ℚ) - ((1200 : ℕ) : ℚ) ∧
    max (0 : ℚ) (((1000 : ℕ) : ℚ) - ((1200 : ℕ) : ℚ)) = 0 :=
  ⟨rfl,
    import_fy06_row_clamps fy06ExampleRow "Concord".data fy06ExampleKwargs rfl,
    rfl,
    by norm_num⟩

-- ==========================================================
-- compute_statewide_totals  (import_data.py lines 1207-1264)
-- ==========================================================

/-- One sped_aid record, restricted to the columns the aggregator reads. -/
structure SpedRow where
  fiscal_year : ℤ
  entitlement : Option ℚ

/-- One building_aid record, restricted to the columns the aggregator reads. -/
structure BuildingRow where
  fiscal_year : ℤ
  total_entitlement : Option ℚ

/-- One charter_school_aid record, restricted to the aggregated column. -/
structure CharterRow where
  fiscal_year : ℤ
  total_aid : Option ℚ

/-- One cte_aid record, restricted to the aggregated column. -/
structure CteRow where
  fiscal_year : ℤ
  total_payment : Option ℚ

/-- One kindergarten_aid record, restricted to the aggregated column. -/
structure KindergartenRow where
  fiscal_year : ℤ
  total_aid : Option ℚ

/-- The six category tables the aggregator reads. -/
structure DB where
  adequacy : List AdequacyRow
  sped : List SpedRow
  building : List BuildingRow
  charter : List CharterRow
  cte : List CteRow
  kindergarten : List KindergartenRow

/-- One statewide_totals record, keyed by fiscal year alone. -/
structure StatewideRow where
  fiscal_year : ℤ
  total_adequacy_aid : ℚ
  total_sped_aid : ℚ
  total_building_aid : ℚ
  total_charter_aid : ℚ
  total_cte_aid : ℚ
  total_kindergarten_aid : ℚ
  total_all_education_aid : ℚ
  base_cost_per_pupil : Option ℚ
  swept_rate : Option ℚ
  total_adm : ℚ
  total_fr_adm : ℚ
  aid_per_pupil : ℚ

/-- Base cost per pupil by fiscal year, from the source table. -/
def BASE_COST_PER_PUPIL : List (ℤ × ℚ) :=
  [(2004, 3390.00), (2006, 3917.00), (2007, 3917.00), (2008, 3917.00),
   (2009, 3917.00), (2010, 3450.00), (2011, 3450.00), (2012, 3450.00),
   (2013, 3450.00), (2014, 3498.30), (2015, 3561.27), (2016, 3561.27),
   (2017, 3636.06), (2018, 3636.06), (2019, 3708.78), (2020, 3708.78),
   (2021, 3708.78), (2022, 3786.66), (2023, 3786.66), (2024, 4100.00),
   (2025, 4182.00), (2026, 4265.64), (2027, 4350.00)]

/-- SWEPT rate per thousand by fiscal year, from the source table. -/
def SWEPT_RATES : List (ℤ × ℚ) :=
  [(2004, 4.92), (2006, 2.84), (2007, 2.515), (2008, 2.24), (2009, 2.14),
   (2010, 2.135), (2011, 2.19), (2012, 2.325), (2013, 2.39), (2014, 2.435),
   (2015, 2.48), (2016, 2.39), (2017, 2.31), (2018, 2.26), (2019, 2.14),
   (2020, 2.04), (2021, 1.925), (2022, 1.88), (2023, 1.88), (2024, 1.38),
   (2025, 1.22), (2026, 1.12), (2027, 1.06)]

/-- Python dict get: the value for the key when present, else None. -/
def dictGet (table : List (ℤ × ℚ)) (fy : ℤ) : Option ℚ :=
  (table.find? (fun p => p.1 = fy)).map (fun p => p.2)

/-- SQL SUM over a nullable column: null entries are ignored, and the
trailing or-zero of the source turns an all-null sum into zero, which the fold
gives already. -/
def sumQ (l : List (Option ℚ)) : ℚ := (l.filterMap id).sum

/-- The statewide_totals record computed for one fiscal year: the per-table
per-year sums, their grand total, the rate-table lookups, and aid per pupil
derived with the guard against a zero enrollment divisor.  The source also
sums total_state_grant into a local that the INSERT never stores; it is
omitted here because no output depends on it. -/
def statewideRecord (db : DB) (fy : ℤ) : StatewideRow :=
  let aRows := db.adequacy.filter (fun r => r.fiscal_year = fy)
  let total_adequacy := sumQ (aRows.map (fun r => r.fields AdequacyField.total_adequacy_grant))
  let total_adm := sumQ (aRows.map (fun r => r.fields AdequacyField.adm))
  let total_fr_adm := sumQ (aRows.map (fun r => r.fields AdequacyField.fr_adm))
  let total_sped := sumQ ((db.sped.filter (fun r => r.fiscal_year = fy)).map
    (fun r => r.entitlement))
  let total_building := sumQ ((db.building.filter (fun r => r.fiscal_year = fy)).map
    (fun r => r.total_entitlement))
  let total_charter := sumQ ((db.charter.filter (fun r => r.fiscal_year = fy)).map
    (fun r => r.total_aid))
  let total_cte := sumQ ((db.cte.filter (fun r => r.fiscal_year = fy)).map
    (fun r => r.total_payment))
  let total_kinder := sumQ ((db.kindergarten.filter (fun r => r.fiscal_year = fy)).map
    (fun r => r.total_aid))
  let total_all := total_adequacy + total_sped + total_building + total_charter +
    total_cte + total_kinder
  ⟨fy, total_adequacy, total_sped, total_building, total_charter, total_cte,
    total_kinder, total_all, dictGet BASE_COST_PER_PUPIL fy, dictGet SWEPT_RATES fy,
    total_adm, total_fr_adm, if 0 < total_adm then total_all / total_adm else 0⟩

/-- INSERT OR REPLACE into statewide_totals: the fiscal year is the primary
key, so any row with the same year is deleted and the new row inserted. -/
def replaceInto (l : List StatewideRow) (r : StatewideRow) : List StatewideRow :=
  (l.filter (fun x => !(x.fiscal_year = r.fiscal_year : Bool))) ++ [r]

/-- The fiscal years the aggregator walks: SELECT DISTINCT fiscal_year FROM
adequacy_aid ORDER BY fiscal_year. -/
def adequacy_years (db : DB) : List ℤ :=
  List.insertionSort (· ≤ ·) (db.adequacy.map (fun r => r.fiscal_year)).dedup

/-- compute_statewide_totals: for each distinct adequacy fiscal year, build
the statewide record and write it over any previous row for that year. -/
def compute_statewide_totals (db : DB) (st : List StatewideRow) : List StatewideRow :=
  (adequacy_years db).foldl (fun acc fy => replaceInto acc (statewideRecord db fy)) st

/-- Number of statewide rows stored for a fiscal year. -/
def countFy (l : List StatewideRow) (fy : ℤ) : ℕ :=
  l.countP (fun r => r.fiscal_year = fy)

/-- The first statewide row stored for a fiscal year. -/
def findFy (l : List StatewideRow) (fy : ℤ) : Option StatewideRow :=
  l.find? (fun r => r.fiscal_year = fy)

-- fold lemmas for the replace-insert loop

theorem find?_eq_head_filter {α : Type} (p : α → Bool) :
    ∀ l : List α, l.find? p = (l.filter p).head? := by
  intro l
  induction l with
  | nil => rfl
  | cons a t ih =>
    by_cases h : p a
    · rw [List.find?_cons_of_pos _ h, List.filter_cons_of_pos h, List.head?_cons]
    · rw [List.find?_cons_of_neg _ (by simpa using h),
        List.filter_cons_of_neg (by simpa using h), ih]

theorem filter_replaceInto_ne {l : List StatewideRow} {r : StatewideRow} {fy : ℤ}
    (h : r.fiscal_year ≠ fy) :
    (replaceInto l r).filter (fun x => x.fiscal_year = fy) =
      l.filter (fun x => x.fiscal_year = fy) := by
  unfold replaceInto
  rw [List.filter_append, List.filter_filter]
  have h1 : List.filter (fun x => decide (x.fiscal_year = fy) &&
      !(decide (x.fiscal_year = r.fiscal_year) : Bool)) l =
      List.filter (fun x => x.fiscal_year = fy) l := by
    apply List.filter_congr
    intro x _
    by_cases hx : x.fiscal_year = fy
    · simp [hx, Ne.symm h]
    · simp [hx]
  have h2 : List.filter (fun x => decide (x.fiscal_year = fy)) [r] = [] := by
    simp [h]
  rw [h1, h2, List.append_nil]

theorem filter_replaceInto_eq {l : List StatewideRow} {r : StatewideRow} {fy : ℤ}
    (h : r.fiscal_year = fy) :
    (replaceInto l r).filter (fun x => x.fiscal_year = fy) = [r] := by
  unfold replaceInto
  rw [List.filter_append, List.filter_filter]
  have h1 : List.filter (fun x => decide (x.fiscal_year = fy) &&
      !(decide (x.fiscal_year = r.fiscal_year) : Bool)) l = [] := by
    rw [List.filter_eq_nil_iff]
    intro x _
    by_cases hx : x.fiscal_year = fy
    · simp [hx, h]
    · simp [hx]
  have h2 : List.filter (fun x => decide (x.fiscal_year = fy)) [r] = [r] := by
    simp [h]
  rw [h1, h2, List.nil_append]

theorem filter_fold_not_mem (db : DB) :
    ∀ (ys : List ℤ) (st : List StatewideRow) (fy : ℤ), fy ∉ ys →
      (ys.foldl (fun acc y => replaceInto acc (statewideRecord db y)) st).filter
          (fun x => x.fiscal_year = fy) =
        st.filter (fun x => x.fiscal_year = fy) := by
  intro ys
  induction ys with
  | nil => intro st fy _; rfl
  | cons y t ih =>
    intro st fy h
    rw [List.foldl_cons, ih _ fy (fun hm => h (List.mem_cons_of_mem _ hm))]
    exact filter_replaceInto_ne
      (show y ≠ fy from fun hy => h (hy ▸ List.mem_cons_self y t))

theorem filter_fold_mem (db : DB) :
    ∀ (ys : List ℤ) (st : List StatewideRow) (fy : ℤ), fy ∈ ys → ys.Nodup →
      (ys.foldl (fun acc y => replaceInto acc (statewideRecord db y)) st).filter
          (fun x => x.fiscal_year = fy) = [statewideRecord db fy] := by
  intro ys
  induction ys with
  | nil => intro st fy hm _; cases hm
  | cons y t ih =>
    intro st fy hm hnd
    rw [List.foldl_cons]
    rcases List.mem_cons.mp hm with rfl | hm2
    · rw [filter_fold_not_mem db t _ fy (List.nodup_cons.mp hnd).1]
      exact filter_replaceInto_eq rfl
    · exact ih _ fy hm2 (List.nodup_cons.mp hnd).2

theorem mem_adequacy_years {db : DB} {fy : ℤ}
    (h : fy ∈ db.adequacy.map (fun r => r.fiscal_year)) : fy ∈ adequacy_years db := by
  unfold adequacy_years
  rw [(List.perm_insertionSort _ _).mem_iff, List.mem_dedup]
  exact h

theorem nodup_adequacy_years (db : DB) : (adequacy_years db).Nodup :=
  ((List.perm_insertionSort _ _).nodup_iff).mpr (List.nodup_dedup _)

-- ==========================================================
-- C1: one statewide record per fiscal year
-- ==========================================================

/-- C1 counterexample: the aggregator enumerates only the fiscal years of
the adequacy table, so a year present only in the kindergarten table gets no
StatewideTotals record, contradicting the claim that every year present in
any of the six category tables gets exactly one. -/
def cexDB : DB :=
  ⟨[], [], [], [], [], [⟨2019, some 1100⟩]⟩

theorem compute_statewide_totals_misses_kindergarten_year :
    (2019 : ℤ) ∈ cexDB.kindergarten.map (fun r => r.fiscal_year) ∧
    compute_statewide_totals cexDB [] = [] ∧
    countFy (compute_statewide_totals cexDB []) 2019 = 0 :=
  ⟨by decide, rfl, rfl⟩

/-- C1 amended: after compute_statewide_totals runs, exactly one
StatewideTotals record exists for every fiscal year present in the adequacy
table; a fiscal year present only in a non-adequacy category table is not
enumerated and gets no record. -/
theorem compute_statewide_totals_unique (db : DB) (st0 : List StatewideRow) (fy : ℤ)
    (h : fy ∈ db.adequacy.map (fun r => r.fiscal_year)) :
    countFy (compute_statewide_totals db st0) fy = 1 := by
  unfold countFy compute_statewide_totals
  rw [List.countP_eq_length_filter,
    filter_fold_mem db (adequacy_years db) st0 fy (mem_adequacy_years h)
      (nodup_adequacy_years db)]
  rfl

/-- A one-town database used to instantiate the aggregator theorems. -/
def exampleDB : DB :=
  ⟨[⟨1, 2020, fun f => if f = AdequacyField.adm then some 5
      else if f = AdequacyField.total_adequacy_grant then some 100 else none⟩],
   [], [], [], [], []⟩

/-- C1 witness: uniqueness applied at the concrete one-town database. -/
theorem compute_statewide_totals_unique_witness :
    countFy (compute_statewide_totals exampleDB []) 2020 = 1 :=
  compute_statewide_totals_unique exampleDB [] 2020 (by decide)

-- ==========================================================
-- C2: the statewide invariants
-- ==========================================================

theorem findFy_compute (db : DB) (st0 : List StatewideRow) (fy : ℤ)
    (h : fy ∈ db.adequacy.map (fun r => r.fiscal_year)) :
    findFy (compute_statewide_totals db st0) fy = some (statewideRecord db fy) := by
  unfold findFy compute_statewide_totals
  rw [find?_eq_head_filter,
    filter_fold_mem db (adequacy_years db) st0 fy (mem_adequacy_years h)
      (nodup_adequacy_years db)]
  rfl

theorem statewideRecord_total_all (db : DB) (fy : ℤ) :
    (statewideRecord db fy).total_all_education_aid =
      (statewideRecord db fy).total_adequacy_aid + (statewideRecord db fy).total_sped_aid +
      (statewideRecord db fy).total_building_aid + (statewideRecord db fy).total_charter_aid +
      (statewideRecord db fy).total_cte_aid +
      (statewideRecord db fy).total_kindergarten_aid := rfl

theorem statewideRecord_app (db : DB) (fy : ℤ) :
    (statewideRecord db fy).aid_per_pupil =
      (if 0 < (statewideRecord db fy).total_adm then
        (statewideRecord db fy).total_all_education_aid / (statewideRecord db fy).total_adm
      else 0) := rfl

/-- C2: every statewide record the aggregator stores for an enumerated year
has its grand total equal to the exact sum of the six per-category totals,
and its aid per pupil equal to the grand total divided by total ADM when the
ADM is positive, and zero when the ADM is zero, with no division by zero. -/
theorem statewide_totals_invariant (db : DB) (st0 : List StatewideRow) (fy : ℤ)
    (r : StatewideRow) (hfy : fy ∈ db.adequacy.map (fun x => x.fiscal_year))
    (hr : findFy (compute_statewide_totals db st0) fy = some r) :
    r.total_all_education_aid =
      r.total_adequacy_aid + r.total_sped_aid + r.total_building_aid +
      r.total_charter_aid + r.total_cte_aid + r.total_kindergarten_aid ∧
    (0 < r.total_adm → r.aid_per_pupil = r.total_all_education_aid / r.total_adm) ∧
    (r.total_adm = 0 → r.aid_per_pupil = 0) := by
  rw [findFy_compute db st0 fy hfy] at hr
  have h2 := Option.some.inj hr
  subst h2
  refine ⟨statewideRecord_total_all db fy, ?_, ?_⟩
  · intro h
    rw [statewideRecord_app, if_pos h]
  · intro h
    rw [statewideRecord_app, h, if_neg (lt_irrefl 0)]

/-- C2 witness: the invariants applied to the record the aggregator stores
for the concrete one-town database. -/
theorem statewide_totals_invariant_witness :
    findFy (compute_statewide_totals exampleDB []) 2020 =
      some (statewideRecord exampleDB 2020) ∧
    ((statewideRecord exampleDB 2020).total_all_education_aid =
      (statewideRecord exampleDB 2020).total_adequacy_aid +
      (statewideRecord exampleDB 2020).total_sped_aid +
      (statewideRecord exampleDB 2020).total_building_aid +
      (statewideRecord exampleDB 2020).total_charter_aid +
      (statewideRecord exampleDB 2020).total_cte_aid +
      (statewideRecord exampleDB 2020).total_kindergarten_aid) ∧
    (0 < (statewideRecord exampleDB 2020).total_adm →
      (statewideRecord exampleDB 2020).aid_per_pupil =
        (statewideRecord exampleDB 2020).total_all_education_aid /
          (statewideRecord exampleDB 2020).total_adm) ∧
    ((statewideRecord exampleDB 2020).total_adm = 0 →
      (statewideRecord exampleDB 2020).aid_per_pupil = 0) :=
  ⟨rfl, statewide_totals_invariant exampleDB [] 2020 (statewideRecord exampleDB 2020)
    (by decide) rfl⟩

end NHEd
